import Mathlib

/-
Verification of the reconstruction-and-aggregation core of the wealth-tracker
repository (src/app.py, function process_sheet_data and its helpers).

Modelling choices:
* a Python string is a list of characters (Str);
* Python float values are modelled as rationals;
* Python dicts are insertion-ordered association lists (ainsert and alookup
  reproduce dict item assignment and dict.get);
* Python sets of dates are insertion-ordered duplicate-free lists; the set of
  category names is iterated by the interpreter in an order that depends on the
  per-process string hash seed, so every function that iterates the set takes
  the iteration order tOrd as an explicit parameter; a run of the program
  corresponds to a tOrd that is a permutation of the collected distinct names;
* exceptions raised by the Python code are modelled by Except String.
-/

abbrev Str := List Char

/-- Whitespace characters stripped by Python str.strip. -/
def pyIsSpace (c : Char) : Bool :=
  c = ' ' || c = '\t' || c = '\n' || c = '\r' || c = '\x0b' || c = '\x0c'

/-- Python str.strip: drop whitespace from both ends. -/
def pystrip (s : Str) : Str :=
  ((s.dropWhile pyIsSpace).reverse.dropWhile pyIsSpace).reverse

/-- Python str.lower (ASCII fragment). -/
def pylower (s : Str) : Str := s.map Char.toLower

/-- app.py line 53: normalize_type returns type_str.strip().lower(). -/
def normalize_type (s : Str) : Str := pylower (pystrip s)

/-- Numeric value of a digit string. -/
def digitsToNat (s : Str) : Nat := s.foldl (fun a c => a * 10 + (c.toNat - 48)) 0

def allDigits (s : Str) : Bool := s.all (fun c => c.isDigit)

def isLeap (y : Nat) : Bool := y % 4 = 0 && (y % 100 ≠ 0 || y % 400 = 0)

def daysInMonth (y m : Nat) : Nat :=
  if m = 2 then (if isLeap y then 29 else 28)
  else if m = 4 || m = 6 || m = 9 || m = 11 then 30 else 31

/-- app.py line 50: parse_date applies datetime.strptime(date_str, like d/m/Y).
A date is encoded as year * 10000 + month * 100 + day, which agrees with the
chronological order used by datetime comparison.  The day needs one or two
digits, the month one or two digits, the year exactly four digits, and the
day must exist in the given month; otherwise strptime raises, modelled by
none. -/
def parse_date (s : Str) : Option Nat :=
  match s.splitOn '/' with
  | [ds, ms, ys] =>
    if allDigits ds && allDigits ms && allDigits ys
        && decide (1 ≤ ds.length) && decide (ds.length ≤ 2)
        && decide (1 ≤ ms.length) && decide (ms.length ≤ 2)
        && decide (ys.length = 4) then
      let d := digitsToNat ds
      let m := digitsToNat ms
      let y := digitsToNat ys
      if 1 ≤ d ∧ 1 ≤ m ∧ m ≤ 12 ∧ 1 ≤ y ∧ d ≤ daysInMonth y m then
        some (y * 10000 + m * 100 + d)
      else none
    else none
  | _ => none

/-- Unsigned decimal literal, as accepted by Python float(). -/
def parseUFloat (s : Str) : Option ℚ :=
  match s.splitOn '.' with
  | [ip] => if allDigits ip && decide (1 ≤ ip.length) then some (digitsToNat ip : ℚ) else none
  | [ip, fp] =>
    if allDigits ip && allDigits fp && decide (1 ≤ ip.length + fp.length) then
      some ((digitsToNat ip : ℚ) + (digitsToNat fp : ℚ) / ((10 : ℚ) ^ fp.length))
    else none
  | _ => none

/-- Python float(value_gbp) restricted to plain decimal literals with an
optional sign and optional surrounding whitespace; any other string raises,
modelled by none. -/
def parseFloat (s : Str) : Option ℚ :=
  match pystrip s with
  | '-' :: rest => (parseUFloat rest).map (fun q => -q)
  | '+' :: rest => parseUFloat rest
  | other => parseUFloat other

/-- Lookup in an insertion-ordered association list (Python dict.get). -/
def alookup {α β : Type} [DecidableEq α] (k : α) : List (α × β) → Option β
  | [] => none
  | (k₀, v₀) :: r => if k₀ = k then some v₀ else alookup k r

/-- Item assignment in an insertion-ordered association list (Python dict
assignment: an existing key keeps its position and gets the new value, a new
key is appended at the end). -/
def ainsert {α β : Type} [DecidableEq α] (k : α) (v : β) : List (α × β) → List (α × β)
  | [] => [(k, v)]
  | (k₀, v₀) :: r => if k₀ = k then (k, v) :: r else (k₀, v₀) :: ainsert k v r

/-- Python set.add on a set modelled as an insertion-ordered duplicate-free
list. -/
def insertSet {α : Type} [DecidableEq α] (l : List α) (x : α) : List α :=
  if x ∈ l then l else l ++ [x]

/-- One iteration of the row loop of process_sheet_data (app.py lines 67-75):
a row with fewer than 5 fields is skipped (continue); a row is then unpacked
into exactly five names, so a row with more than 5 fields raises ValueError;
the date string is parsed (strptime may raise), the type is normalized, and
the GBP value is parsed by float() (which may raise). -/
def readRow (row : List Str) : Except String (Option (Nat × Str × ℚ)) :=
  if row.length < 5 then .ok none
  else
    match row with
    | [date, ty, _, _, valueGbp] =>
      match parse_date date with
      | none => .error "ValueError: strptime"
      | some d =>
        match parseFloat valueGbp with
        | none => .error "ValueError: float"
        | some v => .ok (some (d, normalize_type ty, v))
    | _ => .error "ValueError: unpack"

/-- State built by the row loop of process_sheet_data: the set of dates, the
set of normalized types, and type_latest_values (a dict from normalized type
to a dict from date to GBP value). -/
structure LoopState where
  dates : List Nat
  types : List Str
  store : List (Str × List (Nat × ℚ))
deriving DecidableEq

/-- Effect of one observation row on the loop state (app.py lines 67-75). -/
def collectStep (st : LoopState) (row : List Str) : Except String LoopState := do
  match ← readRow row with
  | none => pure st
  | some (d, t, v) =>
      pure { dates := insertSet st.dates d
             types := insertSet st.types t
             store := ainsert t (ainsert d v ((alookup t st.store).getD [])) st.store }

/-- The whole row loop of process_sheet_data (app.py lines 63-75). -/
def collect (rows : List (List Str)) : Except String LoopState :=
  rows.foldlM collectStep ⟨[], [], []⟩

/-- One entry of the dict comprehension of app.py line 61: a classification
row is read at positions 0 and 1, so a row with fewer than two fields raises
IndexError; there is no skip guard, unlike the observation rows. -/
def tcStep (m : List (Str × Str)) (row : List Str) : Except String (List (Str × Str)) :=
  match row with
  | a :: b :: _ => .ok (ainsert (normalize_type a) b m)
  | _ => .error "IndexError"

/-- app.py line 61: the dict comprehension building type_categories. -/
def buildTypeCategories (rows : List (List Str)) : Except String (List (Str × Str)) :=
  rows.foldlM tcStep []

/-- Keys of type_latest_values for a given type (Python dict.keys()). -/
def storeKeys (store : List (Str × List (Nat × ℚ))) (t : Str) : List Nat :=
  ((alookup t store).getD []).map Prod.fst

/-- Python max on a list of naturals (only used on nonempty lists). -/
def listMax (l : List Nat) : Nat := l.foldl max 0

/-- The list comprehension of app.py line 84: comparing a datetime with None
raises TypeError, so the filter fails as soon as it compares one element when
latest is None. -/
def filterLeOpt (ds : List Nat) (latest : Option Nat) : Except String (List Nat) :=
  match ds with
  | [] => .ok []
  | d :: rest =>
    match latest with
    | none => .error "TypeError"
    | some l =>
      (filterLeOpt rest (some l)).map (fun r => if d ≤ l then d :: r else r)

/-- Body of the latest-values loop of process_sheet_data (app.py lines 82-89)
for one type. -/
def latestStep (store : List (Str × List (Nat × ℚ))) (latest : Option Nat)
    (acc : List (Str × ℚ)) (t : Str) : Except String (List (Str × ℚ)) := do
  let tdates ← filterLeOpt (storeKeys store t) latest
  if tdates.isEmpty then
    pure (ainsert t 0 acc)
  else
    pure (ainsert t ((alookup (listMax tdates) ((alookup t store).getD [])).getD 0) acc)

/-- The latest-values loop of process_sheet_data (app.py lines 80-89),
iterating the types set in the order tOrd. -/
def buildLatest (tOrd : List Str) (store : List (Str × List (Nat × ℚ)))
    (latest : Option Nat) : Except String (List (Str × ℚ)) :=
  tOrd.foldlM (latestStep store latest) []

/-- app.py lines 106-111: the carried-forward (LOCF) value of a type at a
query date: the value recorded at the greatest recorded date that is not
after the query date, and 0 when the type has no recorded date at or before
it. -/
def locfValue (store : List (Str × List (Nat × ℚ))) (t : Str) (date : Nat) : ℚ :=
  let tdates := (storeKeys store t).filter (fun d => decide (d ≤ date))
  if tdates.isEmpty then 0
  else (alookup (listMax tdates) ((alookup t store).getD [])).getD 0

/-- Accumulator of the time-series loop of process_sheet_data (app.py lines
92-120): type_data plus the three total series. -/
structure ChartAcc where
  type_data : List (Str × List ℚ)
  total_assets : List ℚ
  total_debts : List ℚ
  net_worth : List ℚ
deriving DecidableEq

def assetLbl : Str := "Asset".toList

def debtLbl : Str := "Debt".toList

/-- Body of the inner loop over the types set (app.py lines 104-117): append
the carried-forward value to type_data of the type and add it to the asset or
debt accumulator according to type_categories.get. -/
def typeStep (store : List (Str × List (Nat × ℚ))) (cats : List (Str × Str)) (date : Nat)
    (acc : List (Str × List ℚ) × ℚ × ℚ) (t : Str) : List (Str × List ℚ) × ℚ × ℚ :=
  let v := locfValue store t date
  let td := ainsert t (((alookup t acc.1).getD []) ++ [v]) acc.1
  if alookup t cats = some assetLbl then (td, acc.2.1 + v, acc.2.2)
  else if alookup t cats = some debtLbl then (td, acc.2.1, acc.2.2 + v)
  else (td, acc.2.1, acc.2.2)

/-- Body of the outer loop over sorted_dates (app.py lines 101-120). -/
def dateStep (store : List (Str × List (Nat × ℚ))) (cats : List (Str × Str))
    (tOrd : List Str) (acc : ChartAcc) (date : Nat) : ChartAcc :=
  let r := tOrd.foldl (typeStep store cats date) (acc.type_data, 0, 0)
  { type_data := r.1
    total_assets := acc.total_assets ++ [r.2.1]
    total_debts := acc.total_debts ++ [r.2.2]
    net_worth := acc.net_worth ++ [r.2.1 - r.2.2] }

/-- The whole time-series loop of process_sheet_data (app.py lines 101-120). -/
def chartLoop (store : List (Str × List (Nat × ℚ))) (cats : List (Str × Str))
    (tOrd : List Str) (ds : List Nat) : ChartAcc :=
  ds.foldl (dateStep store cats tOrd) ⟨[], [], [], []⟩

/-- Python sorted on the collected date set. -/
def sortNat (l : List Nat) : List Nat := l.insertionSort (fun a b => a ≤ b)

/-- Decimal digit character. -/
def digitChar (n : Nat) : Char := Char.ofNat (48 + n % 10)

/-- Two-digit zero-padded decimal rendering. -/
def pad2Nat (n : Nat) : Str := [digitChar (n / 10), digitChar n]

/-- Four-digit zero-padded decimal rendering. -/
def pad4Nat (n : Nat) : Str := [digitChar (n / 1000), digitChar (n / 100), digitChar (n / 10), digitChar n]

/-- app.py line 93: strftime of an encoded date back to a d/m/Y string with
two-digit day and month and four-digit year. -/
def formatDate (n : Nat) : Str :=
  pad2Nat (n % 100) ++ ['/'] ++ pad2Nat (n / 100 % 100) ++ ['/'] ++ pad4Nat (n / 10000)

/-- The chart_data dict returned by process_sheet_data (app.py lines 92-99). -/
structure ChartData where
  dates : List Str
  types : List Str
  type_data : List (Str × List ℚ)
  total_assets : List ℚ
  total_debts : List ℚ
  net_worth : List ℚ
deriving DecidableEq

/-- The triple returned by process_sheet_data (app.py line 122). -/
structure PResult where
  chart : ChartData
  latest_data : List (Str × ℚ)
  type_categories : List (Str × Str)
deriving DecidableEq

/-- app.py lines 56-122: process_sheet_data on already-fetched observation
rows and classification rows.  tOrd is the order in which the interpreter
iterates the Python set types (lines 82, 94 and 104 all iterate that same
set, in the same order within one run); a run of the program corresponds to a
tOrd that is a permutation of the collected distinct normalized types. -/
def process_sheet_data (tOrd : List Str) (net_worth_data types_data : List (List Str)) :
    Except String PResult := do
  let type_categories ← buildTypeCategories types_data
  let st ← collect net_worth_data
  let sorted_dates := sortNat st.dates
  let latest_date := sorted_dates.getLast?
  let latest_data ← buildLatest tOrd st.store latest_date
  let c := chartLoop st.store type_categories tOrd sorted_dates
  pure { chart := { dates := sorted_dates.map formatDate
                    types := tOrd
                    type_data := c.type_data
                    total_assets := c.total_assets
                    total_debts := c.total_debts
                    net_worth := c.net_worth }
         latest_data := latest_data
         type_categories := type_categories }

/-! Basic lemmas about the dict and set models. -/

theorem alookup_ainsert_self {α β : Type} [DecidableEq α] (k : α) (v : β)
    (l : List (α × β)) : alookup k (ainsert k v l) = some v := by
  induction l with
  | nil => simp [ainsert, alookup]
  | cons p r ih =>
    by_cases h : p.1 = k
    · simp [ainsert, alookup, h]
    · simp [ainsert, alookup, h, ih]

theorem alookup_ainsert_ne {α β : Type} [DecidableEq α] (k k₀ : α) (v : β)
    (l : List (α × β)) (h : k₀ ≠ k) : alookup k (ainsert k₀ v l) = alookup k l := by
  have hne : k ≠ k₀ := Ne.symm h
  induction l with
  | nil => simp [ainsert, alookup, h]
  | cons p r ih =>
    by_cases h₁ : p.1 = k₀
    · simp [ainsert, alookup, h₁, h, hne]
    · by_cases h₂ : p.1 = k <;> simp [ainsert, alookup, h₁, h₂, h, hne, ih]

theorem alookup_isSome_of_mem_keys {α β : Type} [DecidableEq α] (k : α)
    (l : List (α × β)) (h : k ∈ l.map Prod.fst) : ∃ v, alookup k l = some v := by
  induction l with
  | nil => simp at h
  | cons p r ih =>
    by_cases h₁ : p.1 = k
    · exact ⟨p.2, by simp [alookup, h₁]⟩
    · simp [alookup, h₁]
      rcases (by simpa [eq_comm, h₁, Ne.symm h₁] using h : k ∈ r.map Prod.fst) with hm
      exact ih hm

theorem mem_keys_ainsert {α β : Type} [DecidableEq α] (x k : α) (v : β)
    (l : List (α × β)) : x ∈ (ainsert k v l).map Prod.fst ↔ x = k ∨ x ∈ l.map Prod.fst := by
  induction l with
  | nil => simp [ainsert]
  | cons p r ih =>
    by_cases h₁ : p.1 = k
    · subst h₁; simp [ainsert]
    · simp [ainsert, h₁, ih]
      tauto

theorem ainsert_ne_nil {α β : Type} [DecidableEq α] (k : α) (v : β)
    (l : List (α × β)) : ainsert k v l ≠ [] := by
  cases l with
  | nil => simp [ainsert]
  | cons p r =>
    by_cases h : p.1 = k <;> simp [ainsert, h]

theorem mem_insertSet {α : Type} [DecidableEq α] (l : List α) (x y : α) :
    y ∈ insertSet l x ↔ y ∈ l ∨ y = x := by
  unfold insertSet
  by_cases h : x ∈ l
  · simp [h]
    intro hy; subst hy; exact h
  · simp [h]

theorem nodup_insertSet {α : Type} [DecidableEq α] (l : List α) (x : α)
    (h : l.Nodup) : (insertSet l x).Nodup := by
  unfold insertSet
  by_cases hx : x ∈ l
  · simpa [hx]
  · simp [hx, List.nodup_append, h]

theorem init_le_foldl_max (l : List Nat) : ∀ a, a ≤ l.foldl max a := by
  induction l with
  | nil => intro a; simp
  | cons b r ih =>
    intro a
    simp only [List.foldl_cons]
    exact le_trans (le_max_left a b) (ih (max a b))

theorem le_foldl_max (l : List Nat) : ∀ a x, x ∈ l → x ≤ l.foldl max a := by
  induction l with
  | nil => intro a x h; simp at h
  | cons b r ih =>
    intro a x h
    simp only [List.foldl_cons]
    rcases List.mem_cons.mp h with h | h
    · subst h
      exact le_trans (le_max_right a x) (init_le_foldl_max r (max a x))
    · exact ih (max a b) x h

theorem foldl_max_mem (l : List Nat) : ∀ a, l.foldl max a = a ∨ l.foldl max a ∈ l := by
  induction l with
  | nil => intro a; simp
  | cons b r ih =>
    intro a
    simp only [List.foldl_cons]
    rcases ih (max a b) with h | h
    · rcases max_choice a b with hm | hm
      · exact Or.inl (h.trans hm)
      · exact Or.inr (by rw [h.trans hm]; exact List.mem_cons_self b r)
    · exact Or.inr (List.mem_cons_of_mem _ h)

theorem le_listMax (l : List Nat) (x : Nat) (h : x ∈ l) : x ≤ listMax l :=
  le_foldl_max l 0 x h

theorem listMax_mem (l : List Nat) (h : l ≠ []) : listMax l ∈ l := by
  rcases foldl_max_mem l 0 with h₀ | h₀
  · cases l with
    | nil => exact absurd rfl h
    | cons b r =>
      have hb : b ≤ listMax (b :: r) := le_listMax _ b (by simp)
      have hz : listMax (b :: r) = 0 := h₀
      have hb0 : b = 0 := by omega
      rw [listMax] at *
      rw [h₀, ← hb0]
      exact List.mem_cons_self b r
  · exact h₀

/-! Lemmas about the row-collection loop. -/

theorem except_ok_bind {ε α β : Type} (a : α) (f : α → Except ε β) :
    ((Except.ok a : Except ε α) >>= f) = f a := rfl

theorem except_error_bind {ε α β : Type} (e : ε) (f : α → Except ε β) :
    ((Except.error e : Except ε α) >>= f) = Except.error e := rfl

theorem except_pure_eq_ok {ε α : Type} (a : α) : (pure a : Except ε α) = Except.ok a := rfl

theorem collectStep_short (st : LoopState) (row : List Str) (h : row.length < 5) :
    collectStep st row = .ok st := by
  simp [collectStep, readRow, h, except_ok_bind, except_pure_eq_ok]

theorem store_step_lookup (store : List (Str × List (Nat × ℚ))) (t₀ : Str) (d₀ : Nat)
    (v : ℚ) (t : Str) (d : Nat) :
    alookup d ((alookup t
        (ainsert t₀ (ainsert d₀ v ((alookup t₀ store).getD [])) store)).getD []) =
      if t₀ = t ∧ d₀ = d then some v
      else alookup d ((alookup t store).getD []) := by
  by_cases ht : t₀ = t
  · subst ht
    rw [alookup_ainsert_self]
    by_cases hd : d₀ = d
    · subst hd
      simp [alookup_ainsert_self]
    · simp [hd, alookup_ainsert_ne _ _ _ _ hd]
  · rw [alookup_ainsert_ne _ _ _ _ ht]
    simp [ht]

/-- Invariant of the collection loop: the date set and type set are
duplicate-free, the type set is exactly the key set of type_latest_values,
every recorded date is in the date set, and every collected type has at least
one recorded date. -/
def StInv (st : LoopState) : Prop :=
  st.dates.Nodup ∧ st.types.Nodup ∧
  (∀ t, t ∈ st.types ↔ t ∈ st.store.map Prod.fst) ∧
  (∀ t d, d ∈ storeKeys st.store t → d ∈ st.dates) ∧
  (∀ t, t ∈ st.types → storeKeys st.store t ≠ [])

theorem collectStep_inv (st st' : LoopState) (row : List Str)
    (h : collectStep st row = .ok st') (hinv : StInv st) : StInv st' := by
  obtain ⟨hd, ht, hiff, hsub, hne⟩ := hinv
  cases hro : readRow row with
  | error e => simp [collectStep, hro, except_error_bind] at h
  | ok o =>
    cases o with
    | none =>
      have hst : st = st' := by
        simpa [collectStep, hro, except_ok_bind, except_pure_eq_ok] using h
      rw [← hst]; exact ⟨hd, ht, hiff, hsub, hne⟩
    | some rec =>
      obtain ⟨d₀, t₀, v⟩ := rec
      have hst : st' = { dates := insertSet st.dates d₀
                         types := insertSet st.types t₀
                         store := ainsert t₀ (ainsert d₀ v ((alookup t₀ st.store).getD []))
                                    st.store } := by
        have h₂ := h
        simp only [collectStep, hro, except_ok_bind, except_pure_eq_ok] at h₂
        exact (Except.ok.inj h₂).symm
      subst hst
      refine ⟨nodup_insertSet _ _ hd, nodup_insertSet _ _ ht, ?_, ?_, ?_⟩
      · intro t
        rw [mem_insertSet, mem_keys_ainsert, hiff t]
        tauto
      · intro t d hmem
        by_cases htt : t₀ = t
        · subst htt
          rw [storeKeys, alookup_ainsert_self] at hmem
          simp only [Option.getD_some] at hmem
          rcases (mem_keys_ainsert _ _ _ _).mp hmem with h₁ | h₁
          · rw [h₁, mem_insertSet]; exact Or.inr rfl
          · rw [mem_insertSet]; exact Or.inl (hsub t₀ d h₁)
        · rw [storeKeys, alookup_ainsert_ne _ _ _ _ htt] at hmem
          rw [mem_insertSet]; exact Or.inl (hsub t d hmem)
      · intro t hmem
        by_cases htt : t₀ = t
        · subst htt
          rw [storeKeys, alookup_ainsert_self]
          simp only [Option.getD_some, ne_eq, List.map_eq_nil_iff]
          exact ainsert_ne_nil _ _ _
        · rw [storeKeys, alookup_ainsert_ne _ _ _ _ htt]
          rcases (mem_insertSet _ _ _).mp hmem with h₁ | h₁
          · exact hne t h₁
          · exact absurd h₁.symm htt

theorem foldlM_collect_inv (rows : List (List Str)) :
    ∀ st st', rows.foldlM collectStep st = .ok st' → StInv st → StInv st' := by
  induction rows with
  | nil =>
    intro st st' h hi
    rw [List.foldlM_nil, except_pure_eq_ok] at h
    rwa [← Except.ok.inj h]
  | cons row rest ih =>
    intro st st' h hi
    rw [List.foldlM_cons] at h
    cases hs : collectStep st row with
    | error e => rw [hs, except_error_bind] at h; exact absurd h (by simp)
    | ok st₁ =>
      rw [hs, except_ok_bind] at h
      exact ih st₁ st' h (collectStep_inv st st₁ row hs hi)

theorem collect_stinv (rows : List (List Str)) (st : LoopState)
    (h : collect rows = .ok st) : StInv st := by
  refine foldlM_collect_inv rows _ st h ?_
  refine ⟨List.nodup_nil, List.nodup_nil, ?_, ?_, ?_⟩
  · intro t; simp
  · intro t d hmem; simp [storeKeys, alookup] at hmem
  · intro t hmem; simp at hmem

theorem mem_keys_of_alookup_some {α β : Type} [DecidableEq α] (k : α) (v : β)
    (l : List (α × β)) (h : alookup k l = some v) : k ∈ l.map Prod.fst := by
  induction l with
  | nil => simp [alookup] at h
  | cons p r ih =>
    by_cases h₁ : p.1 = k
    · simp [h₁]
    · rw [alookup, if_neg h₁] at h
      simp [ih h]

/-- One step of the spec-side last-write-wins accumulation: the value of a
valid 5-field observation row overrides the accumulator when the row carries
the given normalized category and date. -/
def lwStep (t : Str) (d : Nat) (acc : Option ℚ) (row : List Str) : Option ℚ :=
  match readRow row with
  | .ok (some (d₀, t₀, v)) => if t₀ = t ∧ d₀ = d then some v else acc
  | _ => acc

/-- Stated from the spec sentence on duplicate same-day entries: among the
valid observation rows carrying a given (normalized category, date) pair, the
value of the one appearing latest in input order; none when no row carries
the pair. -/
def specLastWrite (rows : List (List Str)) (t : Str) (d : Nat) : Option ℚ :=
  rows.foldl (lwStep t d) none

theorem lw_shift (rows : List (List Str)) (t : Str) (d : Nat) : ∀ acc : Option ℚ,
    rows.foldl (lwStep t d) acc =
      match specLastWrite rows t d with
      | some v => some v
      | none => acc := by
  induction rows with
  | nil => intro acc; simp [specLastWrite]
  | cons row rest ih =>
    intro acc
    rw [specLastWrite, List.foldl_cons, List.foldl_cons, ih (lwStep t d acc row),
      ih (lwStep t d none row)]
    cases hfr : rest.foldl (lwStep t d) none with
    | some v => simp [specLastWrite, hfr]
    | none =>
      simp only [specLastWrite, hfr]
      unfold lwStep
      cases hro : readRow row with
      | error e => rfl
      | ok o =>
        cases o with
        | none => rfl
        | some rec =>
          obtain ⟨d₀, t₀, v⟩ := rec
          by_cases hc : t₀ = t ∧ d₀ = d <;> simp [hc]

theorem specLastWrite_cons (row : List Str) (rest : List (List Str)) (t : Str) (d : Nat) :
    specLastWrite (row :: rest) t d =
      match specLastWrite rest t d with
      | some v => some v
      | none => lwStep t d none row := by
  rw [specLastWrite, List.foldl_cons, lw_shift]

theorem collect_store_lookup (rows : List (List Str)) :
    ∀ st st', rows.foldlM collectStep st = .ok st' → ∀ t d,
      alookup d ((alookup t st'.store).getD []) =
        match specLastWrite rows t d with
        | some v => some v
        | none => alookup d ((alookup t st.store).getD []) := by
  induction rows with
  | nil =>
    intro st st' h t d
    rw [List.foldlM_nil, except_pure_eq_ok] at h
    rw [← Except.ok.inj h]
    simp [specLastWrite]
  | cons row rest ih =>
    intro st st' h t d
    rw [List.foldlM_cons] at h
    cases hs : collectStep st row with
    | error e => rw [hs, except_error_bind] at h; exact absurd h (by simp)
    | ok st₁ =>
      rw [hs, except_ok_bind] at h
      have hrec := ih st₁ st' h t d
      rw [specLastWrite_cons]
      cases hro : readRow row with
      | error e => simp [collectStep, hro, except_error_bind] at hs
      | ok o =>
        cases o with
        | none =>
          have hst : st = st₁ := by
            simpa [collectStep, hro, except_ok_bind, except_pure_eq_ok] using hs
          rw [hrec, ← hst]
          simp only [lwStep, hro]
          cases specLastWrite rest t d <;> rfl
        | some rec =>
          obtain ⟨d₀, t₀, v⟩ := rec
          have hst : st₁ = { dates := insertSet st.dates d₀
                             types := insertSet st.types t₀
                             store := ainsert t₀ (ainsert d₀ v
                               ((alookup t₀ st.store).getD [])) st.store } := by
            have h₂ := hs
            simp only [collectStep, hro, except_ok_bind, except_pure_eq_ok] at h₂
            exact (Except.ok.inj h₂).symm
          rw [hrec, hst]
          simp only [lwStep, hro, store_step_lookup]
          cases specLastWrite rest t d with
          | some w => rfl
          | none =>
            by_cases hc : t₀ = t ∧ d₀ = d <;> simp [hc]

theorem collect_mono (rows : List (List Str)) :
    ∀ st st', rows.foldlM collectStep st = .ok st' →
      (∀ t, t ∈ st.types → t ∈ st'.types) ∧ (∀ d, d ∈ st.dates → d ∈ st'.dates) := by
  induction rows with
  | nil =>
    intro st st' h
    rw [List.foldlM_nil, except_pure_eq_ok] at h
    rw [← Except.ok.inj h]
    exact ⟨fun t ht => ht, fun d hd => hd⟩
  | cons row rest ih =>
    intro st st' h
    rw [List.foldlM_cons] at h
    cases hs : collectStep st row with
    | error e => rw [hs, except_error_bind] at h; exact absurd h (by simp)
    | ok st₁ =>
      rw [hs, except_ok_bind] at h
      obtain ⟨iht, ihd⟩ := ih st₁ st' h
      cases hro : readRow row with
      | error e => simp [collectStep, hro, except_error_bind] at hs
      | ok o =>
        cases o with
        | none =>
          have hst : st = st₁ := by
            simpa [collectStep, hro, except_ok_bind, except_pure_eq_ok] using hs
          rw [hst]
          exact ⟨iht, ihd⟩
        | some rec =>
          obtain ⟨d₀, t₀, v⟩ := rec
          have hst : st₁ = { dates := insertSet st.dates d₀
                             types := insertSet st.types t₀
                             store := ainsert t₀ (ainsert d₀ v
                               ((alookup t₀ st.store).getD [])) st.store } := by
            have h₂ := hs
            simp only [collectStep, hro, except_ok_bind, except_pure_eq_ok] at h₂
            exact (Except.ok.inj h₂).symm
          constructor
          · intro t ht
            refine iht t ?_
            rw [hst]
            exact (mem_insertSet _ _ _).mpr (Or.inl ht)
          · intro d hd
            refine ihd d ?_
            rw [hst]
            exact (mem_insertSet _ _ _).mpr (Or.inl hd)

theorem collect_mem_of_lastWrite (rows : List (List Str)) :
    ∀ st st', rows.foldlM collectStep st = .ok st' → ∀ t d,
      (specLastWrite rows t d).isSome → t ∈ st'.types ∧ d ∈ st'.dates := by
  induction rows with
  | nil => intro st st' h t d hsome; simp [specLastWrite] at hsome
  | cons row rest ih =>
    intro st st' h t d hsome
    rw [List.foldlM_cons] at h
    cases hs : collectStep st row with
    | error e => rw [hs, except_error_bind] at h; exact absurd h (by simp)
    | ok st₁ =>
      rw [hs, except_ok_bind] at h
      rw [specLastWrite_cons] at hsome
      cases hrest : specLastWrite rest t d with
      | some w => exact ih st₁ st' h t d (by rw [hrest]; rfl)
      | none =>
        rw [hrest] at hsome
        cases hro : readRow row with
        | error e => simp [lwStep, hro] at hsome
        | ok o =>
          cases o with
          | none => simp [lwStep, hro] at hsome
          | some rec =>
            obtain ⟨d₀, t₀, v⟩ := rec
            by_cases hc : t₀ = t ∧ d₀ = d
            · have hst : st₁ = { dates := insertSet st.dates d₀
                                 types := insertSet st.types t₀
                                 store := ainsert t₀ (ainsert d₀ v
                                   ((alookup t₀ st.store).getD [])) st.store } := by
                have h₂ := hs
                simp only [collectStep, hro, except_ok_bind, except_pure_eq_ok] at h₂
                exact (Except.ok.inj h₂).symm
              obtain ⟨iht, ihd⟩ := collect_mono rest st₁ st' h
              constructor
              · refine iht t ?_
                rw [hst, ← hc.1]
                exact (mem_insertSet _ _ _).mpr (Or.inr rfl)
              · refine ihd d ?_
                rw [hst, ← hc.2]
                exact (mem_insertSet _ _ _).mpr (Or.inr rfl)
            · simp [lwStep, hro, hc] at hsome

theorem locf_at_recorded (store : List (Str × List (Nat × ℚ))) (t : Str) (d : Nat) (v : ℚ)
    (h : alookup d ((alookup t store).getD []) = some v) : locfValue store t d = v := by
  have hdk : d ∈ storeKeys store t := by
    rw [storeKeys]
    exact mem_keys_of_alookup_some d v _ h
  have hdf : d ∈ (storeKeys store t).filter (fun x => decide (x ≤ d)) := by
    rw [List.mem_filter]
    exact ⟨hdk, by simp⟩
  have hnonempty : (storeKeys store t).filter (fun x => decide (x ≤ d)) ≠ [] :=
    List.ne_nil_of_mem hdf
  have hmm := listMax_mem _ hnonempty
  have hle : listMax ((storeKeys store t).filter (fun x => decide (x ≤ d))) ≤ d := by
    have := (List.mem_filter.mp hmm).2
    simpa using this
  have hge : d ≤ listMax ((storeKeys store t).filter (fun x => decide (x ≤ d))) :=
    le_listMax _ d hdf
  have heq : listMax ((storeKeys store t).filter (fun x => decide (x ≤ d))) = d :=
    le_antisymm hle hge
  rw [locfValue]
  simp only [List.isEmpty_iff, hnonempty, if_neg, heq, h, Option.getD_some]
  simp [hnonempty, heq, h]

/-! Characterization of the time-series loop. -/

/-- Classification test used by the aggregation (Python
type_categories.get(t) == lbl). -/
def catIs (cats : List (Str × Str)) (t lbl : Str) : Bool :=
  decide (alookup t cats = some lbl)

/-- Sum of the carried-forward values, with their original sign, of the
categories classified Asset, over the iteration order ts. -/
def assetSum (store : List (Str × List (Nat × ℚ))) (cats : List (Str × Str))
    (ts : List Str) (date : Nat) : ℚ :=
  ((ts.filter (fun t => catIs cats t assetLbl)).map (fun t => locfValue store t date)).sum

/-- Sum of the carried-forward values, with their original sign, of the
categories classified Debt, over the iteration order ts. -/
def debtSum (store : List (Str × List (Nat × ℚ))) (cats : List (Str × Str))
    (ts : List Str) (date : Nat) : ℚ :=
  ((ts.filter (fun t => catIs cats t debtLbl)).map (fun t => locfValue store t date)).sum

theorem asset_ne_debt : assetLbl ≠ debtLbl := by decide

theorem debt_ne_asset : debtLbl ≠ assetLbl := by decide

theorem typesFold_assets (store : List (Str × List (Nat × ℚ))) (cats : List (Str × Str))
    (date : Nat) : ∀ (ts : List Str) (td : List (Str × List ℚ)) (a b : ℚ),
    (ts.foldl (typeStep store cats date) (td, a, b)).2.1 = a + assetSum store cats ts date := by
  intro ts
  induction ts with
  | nil => intro td a b; simp [assetSum]
  | cons t rest ih =>
    intro td a b
    rw [List.foldl_cons]
    by_cases hA : alookup t cats = some assetLbl
    · simp only [typeStep, hA, if_pos, ih]
      simp [assetSum, List.filter_cons, catIs, hA, add_assoc]
    · by_cases hD : alookup t cats = some debtLbl
      · simp only [typeStep, hA, hD, if_neg, if_pos, ih, debt_ne_asset]
        simp [assetSum, List.filter_cons, catIs, hA, debt_ne_asset]
      · simp only [typeStep, hA, hD, if_neg, ih]
        simp [assetSum, List.filter_cons, catIs, hA]

theorem typesFold_debts (store : List (Str × List (Nat × ℚ))) (cats : List (Str × Str))
    (date : Nat) : ∀ (ts : List Str) (td : List (Str × List ℚ)) (a b : ℚ),
    (ts.foldl (typeStep store cats date) (td, a, b)).2.2 = b + debtSum store cats ts date := by
  intro ts
  induction ts with
  | nil => intro td a b; simp [debtSum]
  | cons t rest ih =>
    intro td a b
    rw [List.foldl_cons]
    by_cases hA : alookup t cats = some assetLbl
    · have hD : ¬ alookup t cats = some debtLbl := by
        rw [hA]; simp; exact asset_ne_debt
      simp only [typeStep, hA, if_pos, ih]
      simp [debtSum, List.filter_cons, catIs, hD]
    · by_cases hD : alookup t cats = some debtLbl
      · simp only [typeStep, hA, hD, if_neg, if_pos, ih, debt_ne_asset]
        simp [debtSum, List.filter_cons, catIs, hD, debt_ne_asset, add_assoc]
      · simp only [typeStep, hA, hD, if_neg, ih]
        simp [debtSum, List.filter_cons, catIs, hD]

theorem typeStep_fst (store : List (Str × List (Nat × ℚ))) (cats : List (Str × Str))
    (date : Nat) (acc : List (Str × List ℚ) × ℚ × ℚ) (t : Str) :
    (typeStep store cats date acc t).1 =
      ainsert t (((alookup t acc.1).getD []) ++ [locfValue store t date]) acc.1 := by
  rw [typeStep]
  split
  · rfl
  · split <;> rfl

theorem typesFold_td (store : List (Str × List (Nat × ℚ))) (cats : List (Str × Str))
    (date : Nat) : ∀ (ts : List Str), ts.Nodup →
    ∀ (td : List (Str × List ℚ)) (a b : ℚ) (t : Str),
    alookup t ((ts.foldl (typeStep store cats date) (td, a, b)).1) =
      if t ∈ ts then some (((alookup t td).getD []) ++ [locfValue store t date])
      else alookup t td := by
  intro ts
  induction ts with
  | nil => intro _ td a b t; simp
  | cons t₀ rest ih =>
    intro hnd td a b t
    have hnotin : t₀ ∉ rest := (List.nodup_cons.mp hnd).1
    have hndr : rest.Nodup := (List.nodup_cons.mp hnd).2
    rw [List.foldl_cons]
    rcases hts : typeStep store cats date (td, a, b) t₀ with ⟨td₁, a₁, b₁⟩
    have htd₁ : td₁ = ainsert t₀ (((alookup t₀ td).getD []) ++ [locfValue store t₀ date]) td := by
      have := typeStep_fst store cats date (td, a, b) t₀
      rw [hts] at this
      exact this
    rw [ih hndr td₁ a₁ b₁ t]
    by_cases htt : t = t₀
    · subst htt
      have hni : t ∉ rest := hnotin
      rw [if_neg hni, if_pos (List.mem_cons_self t rest), htd₁, alookup_ainsert_self]
    · have hne₀ : t₀ ≠ t := fun hh => htt hh.symm
      rw [htd₁, alookup_ainsert_ne _ _ _ _ hne₀]
      by_cases hmr : t ∈ rest
      · rw [if_pos hmr, if_pos (List.mem_cons_of_mem _ hmr)]
      · rw [if_neg hmr, if_neg (by simp [htt, hmr])]

theorem dateStep_total_assets (store : List (Str × List (Nat × ℚ))) (cats : List (Str × Str))
    (tOrd : List Str) (acc : ChartAcc) (q : Nat) :
    (dateStep store cats tOrd acc q).total_assets =
      acc.total_assets ++ [assetSum store cats tOrd q] := by
  simp only [dateStep]
  rw [typesFold_assets, zero_add]

theorem dateStep_total_debts (store : List (Str × List (Nat × ℚ))) (cats : List (Str × Str))
    (tOrd : List Str) (acc : ChartAcc) (q : Nat) :
    (dateStep store cats tOrd acc q).total_debts =
      acc.total_debts ++ [debtSum store cats tOrd q] := by
  simp only [dateStep]
  rw [typesFold_debts, zero_add]

theorem dateStep_net_worth (store : List (Str × List (Nat × ℚ))) (cats : List (Str × Str))
    (tOrd : List Str) (acc : ChartAcc) (q : Nat) :
    (dateStep store cats tOrd acc q).net_worth =
      acc.net_worth ++ [assetSum store cats tOrd q - debtSum store cats tOrd q] := by
  simp only [dateStep]
  rw [typesFold_assets, typesFold_debts, zero_add, zero_add]

theorem dateStep_type_data (store : List (Str × List (Nat × ℚ))) (cats : List (Str × Str))
    (tOrd : List Str) (acc : ChartAcc) (q : Nat) :
    (dateStep store cats tOrd acc q).type_data =
      (tOrd.foldl (typeStep store cats q) (acc.type_data, 0, 0)).1 := rfl

theorem chartFold_assets (store : List (Str × List (Nat × ℚ))) (cats : List (Str × Str))
    (tOrd : List Str) : ∀ (ds : List Nat) (acc : ChartAcc),
    (ds.foldl (dateStep store cats tOrd) acc).total_assets =
      acc.total_assets ++ ds.map (fun q => assetSum store cats tOrd q) := by
  intro ds
  induction ds with
  | nil => intro acc; simp
  | cons q rest ih =>
    intro acc
    rw [List.foldl_cons, ih, dateStep_total_assets]
    simp

theorem chartFold_debts (store : List (Str × List (Nat × ℚ))) (cats : List (Str × Str))
    (tOrd : List Str) : ∀ (ds : List Nat) (acc : ChartAcc),
    (ds.foldl (dateStep store cats tOrd) acc).total_debts =
      acc.total_debts ++ ds.map (fun q => debtSum store cats tOrd q) := by
  intro ds
  induction ds with
  | nil => intro acc; simp
  | cons q rest ih =>
    intro acc
    rw [List.foldl_cons, ih, dateStep_total_debts]
    simp

theorem chartFold_net (store : List (Str × List (Nat × ℚ))) (cats : List (Str × Str))
    (tOrd : List Str) : ∀ (ds : List Nat) (acc : ChartAcc),
    (ds.foldl (dateStep store cats tOrd) acc).net_worth =
      acc.net_worth ++ ds.map (fun q =>
        assetSum store cats tOrd q - debtSum store cats tOrd q) := by
  intro ds
  induction ds with
  | nil => intro acc; simp
  | cons q rest ih =>
    intro acc
    rw [List.foldl_cons, ih, dateStep_net_worth]
    simp

theorem chartFold_td (store : List (Str × List (Nat × ℚ))) (cats : List (Str × Str))
    (tOrd : List Str) (hnd : tOrd.Nodup) : ∀ (ds : List Nat) (acc : ChartAcc) (t : Str),
    ((alookup t ((ds.foldl (dateStep store cats tOrd) acc).type_data)).getD []) =
      ((alookup t acc.type_data).getD []) ++
        (if t ∈ tOrd then ds.map (fun q => locfValue store t q) else []) := by
  intro ds
  induction ds with
  | nil => intro acc t; simp
  | cons q rest ih =>
    intro acc t
    rw [List.foldl_cons, ih]
    by_cases hm : t ∈ tOrd
    · rw [if_pos hm, if_pos hm]
      have h₁ := typesFold_td store cats q tOrd hnd acc.type_data 0 0 t
      rw [if_pos hm] at h₁
      rw [dateStep_type_data, h₁]
      simp
    · rw [if_neg hm, if_neg hm]
      have h₁ := typesFold_td store cats q tOrd hnd acc.type_data 0 0 t
      rw [if_neg hm] at h₁
      rw [dateStep_type_data, h₁]

/-! Characterization of the carried-forward lookup and the latest-values loop. -/

theorem locf_none (store : List (Str × List (Nat × ℚ))) (t : Str) (q : Nat)
    (h : ∀ d ∈ storeKeys store t, ¬ d ≤ q) : locfValue store t q = 0 := by
  have hf : (storeKeys store t).filter (fun d => decide (d ≤ q)) = [] := by
    rw [List.filter_eq_nil_iff]
    intro d hd
    simpa using h d hd
  rw [locfValue]
  simp [hf]

theorem locf_greatest (store : List (Str × List (Nat × ℚ))) (t : Str) (q : Nat)
    (h : ∃ d ∈ storeKeys store t, d ≤ q) :
    ∃ d₀ v, d₀ ∈ storeKeys store t ∧ d₀ ≤ q ∧
      (∀ d ∈ storeKeys store t, d ≤ q → d ≤ d₀) ∧
      alookup d₀ ((alookup t store).getD []) = some v ∧ locfValue store t q = v := by
  obtain ⟨d₁, hd₁, hle₁⟩ := h
  have hd₁f : d₁ ∈ (storeKeys store t).filter (fun d => decide (d ≤ q)) := by
    rw [List.mem_filter]
    exact ⟨hd₁, by simpa using hle₁⟩
  have hnonempty : (storeKeys store t).filter (fun d => decide (d ≤ q)) ≠ [] :=
    List.ne_nil_of_mem hd₁f
  set d₀ := listMax ((storeKeys store t).filter (fun d => decide (d ≤ q))) with hd₀
  have hmem : d₀ ∈ (storeKeys store t).filter (fun d => decide (d ≤ q)) :=
    listMax_mem _ hnonempty
  have hkey : d₀ ∈ storeKeys store t := (List.mem_filter.mp hmem).1
  have hleq : d₀ ≤ q := by
    have := (List.mem_filter.mp hmem).2
    simpa using this
  obtain ⟨v, hv⟩ := alookup_isSome_of_mem_keys d₀ _ (by rw [← storeKeys]; exact hkey)
  refine ⟨d₀, v, hkey, hleq, ?_, hv, ?_⟩
  · intro d hd hdq
    refine le_listMax _ d ?_
    rw [List.mem_filter]
    exact ⟨hd, by simpa using hdq⟩
  · rw [locfValue]
    simp only [List.isEmpty_iff, hnonempty]
    simp [hnonempty, ← hd₀, hv]

theorem except_map_ok {ε α β : Type} (a : α) (f : α → β) :
    (Except.ok a : Except ε α).map f = Except.ok (f a) := rfl

theorem filterLeOpt_some (ds : List Nat) (l : Nat) :
    filterLeOpt ds (some l) = .ok (ds.filter (fun d => decide (d ≤ l))) := by
  induction ds with
  | nil => rfl
  | cons d rest ih =>
    rw [filterLeOpt, ih, except_map_ok, List.filter_cons]
    by_cases hdl : d ≤ l <;> simp [hdl]

theorem latestStep_some (store : List (Str × List (Nat × ℚ))) (l : Nat)
    (acc : List (Str × ℚ)) (t : Str) :
    latestStep store (some l) acc t = .ok (ainsert t (locfValue store t l) acc) := by
  rw [latestStep, filterLeOpt_some]
  simp only [except_ok_bind, locfValue]
  split
  · simp [except_pure_eq_ok]
  · simp [except_pure_eq_ok]

theorem foldlM_latest_some (store : List (Str × List (Nat × ℚ))) (l : Nat) :
    ∀ (ts : List Str) (acc : List (Str × ℚ)),
    ts.foldlM (latestStep store (some l)) acc =
      .ok (ts.foldl (fun m x => ainsert x (locfValue store x l) m) acc) := by
  intro ts
  induction ts with
  | nil => intro acc; rfl
  | cons t rest ih =>
    intro acc
    rw [List.foldlM_cons, latestStep_some, except_ok_bind, ih, List.foldl_cons]

theorem lookup_latest_foldl (store : List (Str × List (Nat × ℚ))) (l : Nat) :
    ∀ (ts : List Str) (acc : List (Str × ℚ)) (t : Str),
    alookup t (ts.foldl (fun m x => ainsert x (locfValue store x l) m) acc) =
      if t ∈ ts then some (locfValue store t l) else alookup t acc := by
  intro ts
  induction ts with
  | nil => intro acc t; simp
  | cons t₀ rest ih =>
    intro acc t
    rw [List.foldl_cons, ih]
    by_cases htt : t = t₀
    · subst htt
      by_cases hmr : t ∈ rest
      · rw [if_pos hmr, if_pos (List.mem_cons_self t rest)]
      · rw [if_neg hmr, if_pos (List.mem_cons_self t rest), alookup_ainsert_self]
    · have hne₀ : t₀ ≠ t := fun hh => htt hh.symm
      by_cases hmr : t ∈ rest
      · rw [if_pos hmr, if_pos (List.mem_cons_of_mem _ hmr)]
      · rw [if_neg hmr, if_neg (by simp [htt, hmr]), alookup_ainsert_ne _ _ _ _ hne₀]

theorem buildLatest_some_lookup (store : List (Str × List (Nat × ℚ))) (l : Nat)
    (ts : List Str) (m : List (Str × ℚ)) (h : buildLatest ts store (some l) = .ok m)
    (t : Str) : alookup t m = if t ∈ ts then some (locfValue store t l) else none := by
  rw [buildLatest, foldlM_latest_some] at h
  rw [← Except.ok.inj h, lookup_latest_foldl]
  by_cases hm : t ∈ ts <;> simp [hm, alookup]

/-! Lemmas about the sorted date list. -/

theorem sortNat_sorted (l : List Nat) : (sortNat l).Sorted (fun a b => a ≤ b) :=
  List.sorted_insertionSort _ l

theorem sortNat_perm (l : List Nat) : (sortNat l).Perm l :=
  List.perm_insertionSort _ l

theorem sorted_le_getLast : ∀ (l : List Nat), l.Sorted (fun a b => a ≤ b) →
    ∀ x ∈ l, ∀ h : l ≠ [], x ≤ l.getLast h := by
  intro l
  induction l with
  | nil => intro _ x hx; simp at hx
  | cons b r ih =>
    intro hs x hx h
    rcases List.sorted_cons.mp hs with ⟨hb, hr⟩
    cases r with
    | nil =>
      simp at hx
      simp [hx, List.getLast]
    | cons c r₂ =>
      rw [List.getLast_cons (by simp)]
      rcases List.mem_cons.mp hx with hx | hx
      · subst hx
        exact hb _ (List.getLast_mem (by simp))
      · exact ih hr x hx (by simp)

/-- Decomposition of a successful run of process_sheet_data into its
phases. -/
theorem process_ok_elim (tOrd : List Str) (obs cls : List (List Str)) (r : PResult)
    (h : process_sheet_data tOrd obs cls = .ok r) :
    ∃ tc st ld, buildTypeCategories cls = .ok tc ∧ collect obs = .ok st ∧
      buildLatest tOrd st.store ((sortNat st.dates).getLast?) = .ok ld ∧
      r = ⟨⟨(sortNat st.dates).map formatDate, tOrd,
            (chartLoop st.store tc tOrd (sortNat st.dates)).type_data,
            (chartLoop st.store tc tOrd (sortNat st.dates)).total_assets,
            (chartLoop st.store tc tOrd (sortNat st.dates)).total_debts,
            (chartLoop st.store tc tOrd (sortNat st.dates)).net_worth⟩, ld, tc⟩ := by
  rw [process_sheet_data] at h
  cases hb : buildTypeCategories cls with
  | error e => rw [hb, except_error_bind] at h; exact absurd h (by simp)
  | ok tc =>
    rw [hb, except_ok_bind] at h
    cases hc : collect obs with
    | error e => rw [hc, except_error_bind] at h; exact absurd h (by simp)
    | ok st =>
      rw [hc, except_ok_bind] at h
      dsimp only at h
      cases hl : buildLatest tOrd st.store ((sortNat st.dates).getLast?) with
      | error e =>
        rw [hl, except_error_bind] at h
        exact absurd h (by simp)
      | ok ld =>
        rw [hl, except_ok_bind, except_pure_eq_ok] at h
        exact ⟨tc, st, ld, rfl, rfl, hl, (Except.ok.inj h).symm⟩


/-! Normalization machinery: labels that differ only in letter case or in
leading and trailing whitespace. -/

/-- Every character of the string is whitespace. -/
def allSpace (s : Str) : Bool := s.all pyIsSpace

/-- The string neither starts nor ends with whitespace. -/
def noEdgeSpace (s : Str) : Bool :=
  (match s.head? with
   | some c => ! pyIsSpace c
   | none => true) &&
  (match s.getLast? with
   | some c => ! pyIsSpace c
   | none => true)

/-- Stated from the spec sentence on label normalization: two raw labels
differ only in letter case or in leading and trailing whitespace when each is
a whitespace padding of a trimmed core and the cores agree after
lowercasing. -/
def labelEquiv (a b : Str) : Prop :=
  ∃ p₁ c₁ s₁ p₂ c₂ s₂, a = p₁ ++ c₁ ++ s₁ ∧ b = p₂ ++ c₂ ++ s₂ ∧
    allSpace p₁ = true ∧ allSpace s₁ = true ∧ allSpace p₂ = true ∧ allSpace s₂ = true ∧
    noEdgeSpace c₁ = true ∧ noEdgeSpace c₂ = true ∧ pylower c₁ = pylower c₂

theorem dropWhile_append_allSpace (p x : Str) (h : allSpace p = true) :
    (p ++ x).dropWhile pyIsSpace = x.dropWhile pyIsSpace := by
  rw [allSpace, List.all_eq_true] at h
  induction p with
  | nil => simp
  | cons c r ih =>
    have hc : pyIsSpace c = true := h c (by simp)
    rw [List.cons_append, List.dropWhile_cons_of_pos hc]
    exact ih (fun d hd => h d (by simp [hd]))

theorem dropWhile_allSpace (s : Str) (h : allSpace s = true) :
    s.dropWhile pyIsSpace = [] := by
  rw [allSpace, List.all_eq_true] at h
  induction s with
  | nil => simp
  | cons c r ih =>
    have hc : pyIsSpace c = true := h c (by simp)
    rw [List.dropWhile_cons_of_pos hc]
    exact ih (fun d hd => h d (by simp [hd]))

theorem dropWhile_head_not (x : Str) (h : ∀ c, x.head? = some c → pyIsSpace c = false) :
    x.dropWhile pyIsSpace = x := by
  cases x with
  | nil => rfl
  | cons c r =>
    have hc : pyIsSpace c = false := h c rfl
    rw [List.dropWhile_cons_of_neg (by simp [hc])]

theorem noEdgeSpace_head (c : Str) (h : noEdgeSpace c = true) (ch : Char)
    (hh : c.head? = some ch) : pyIsSpace ch = false := by
  rw [noEdgeSpace, Bool.and_eq_true] at h
  have h₁ := h.1
  rw [hh] at h₁
  simpa using h₁

theorem noEdgeSpace_last (c : Str) (h : noEdgeSpace c = true) (ch : Char)
    (hh : c.getLast? = some ch) : pyIsSpace ch = false := by
  rw [noEdgeSpace, Bool.and_eq_true] at h
  have h₂ := h.2
  rw [hh] at h₂
  simpa using h₂

theorem pystrip_decomp (p c s : Str) (hp : allSpace p = true) (hs : allSpace s = true)
    (hc : noEdgeSpace c = true) : pystrip (p ++ c ++ s) = c := by
  have hsrev : allSpace s.reverse = true := by
    rw [allSpace, List.all_eq_true] at hs ⊢
    intro d hd
    exact hs d (by simpa using hd)
  rw [pystrip, List.append_assoc, dropWhile_append_allSpace _ _ hp]
  cases c with
  | nil =>
    rw [List.nil_append, dropWhile_allSpace s hs]
    rfl
  | cons ch cr =>
    have hch : pyIsSpace ch = false := noEdgeSpace_head _ hc ch rfl
    rw [List.cons_append, List.dropWhile_cons_of_neg (by simp [hch]),
      ← List.cons_append, List.reverse_append,
      dropWhile_append_allSpace _ _ hsrev,
      dropWhile_head_not _ (fun d hd => noEdgeSpace_last _ hc d (by
        rw [← List.head?_reverse]; exact hd)),
      List.reverse_reverse]

theorem normalize_labelEquiv (a b : Str) (h : labelEquiv a b) :
    normalize_type a = normalize_type b := by
  obtain ⟨p₁, c₁, s₁, p₂, c₂, s₂, ha, hb, hp₁, hs₁, hp₂, hs₂, hc₁, hc₂, hl⟩ := h
  rw [normalize_type, normalize_type, ha, hb,
    pystrip_decomp _ _ _ hp₁ hs₁ hc₁, pystrip_decomp _ _ _ hp₂ hs₂ hc₂]
  exact hl

/-- Pointwise equivalence of observation rows: either identical, or they
differ only in the category label at position 1, up to case and surrounding
whitespace. -/
def obsRowEquiv (r₁ r₂ : List Str) : Prop :=
  r₁ = r₂ ∨ ∃ d t₁ t₂ rest, r₁ = d :: t₁ :: rest ∧ r₂ = d :: t₂ :: rest ∧ labelEquiv t₁ t₂

/-- Pointwise equivalence of classification rows: either identical, or they
differ only in the category label at position 0, up to case and surrounding
whitespace. -/
def clsRowEquiv (r₁ r₂ : List Str) : Prop :=
  r₁ = r₂ ∨ ∃ a₁ a₂ rest, r₁ = a₁ :: rest ∧ r₂ = a₂ :: rest ∧ labelEquiv a₁ a₂

theorem readRow_equiv (r₁ r₂ : List Str) (h : obsRowEquiv r₁ r₂) :
    readRow r₁ = readRow r₂ := by
  rcases h with h | ⟨d, t₁, t₂, rest, h₁, h₂, ht⟩
  · rw [h]
  · subst h₁
    subst h₂
    rcases rest with _ | ⟨x, _ | ⟨y, _ | ⟨v, _ | ⟨w, rest₄⟩⟩⟩⟩
    · rfl
    · rfl
    · rfl
    · simp only [readRow, List.length_cons, List.length_nil]
      norm_num
      rw [normalize_labelEquiv t₁ t₂ ht]
    · rfl

theorem collectStep_equiv (st : LoopState) (r₁ r₂ : List Str) (h : obsRowEquiv r₁ r₂) :
    collectStep st r₁ = collectStep st r₂ := by
  rw [collectStep, collectStep, readRow_equiv _ _ h]

theorem collect_equiv (obs₁ obs₂ : List (List Str))
    (h : List.Forall₂ obsRowEquiv obs₁ obs₂) : collect obs₁ = collect obs₂ := by
  rw [collect, collect]
  suffices hgen : ∀ st : LoopState,
      obs₁.foldlM collectStep st = obs₂.foldlM collectStep st from hgen _
  induction h with
  | nil => intro st; rfl
  | cons hrow hrest ih =>
    rename_i row₁ row₂ l₁ l₂
    intro st
    rw [List.foldlM_cons, List.foldlM_cons, collectStep_equiv st row₁ row₂ hrow]
    cases hs : collectStep st row₂ with
    | error e => simp only [except_error_bind]
    | ok st₁ =>
      simp only [except_ok_bind]
      exact ih st₁

theorem tcStep_equiv (m : List (Str × Str)) (r₁ r₂ : List Str) (h : clsRowEquiv r₁ r₂) :
    tcStep m r₁ = tcStep m r₂ := by
  rcases h with h | ⟨a₁, a₂, rest, h₁, h₂, hl⟩
  · rw [h]
  · subst h₁
    subst h₂
    cases rest with
    | nil => rfl
    | cons b rest₂ =>
      simp only [tcStep]
      rw [normalize_labelEquiv a₁ a₂ hl]

theorem buildTC_equiv (cls₁ cls₂ : List (List Str))
    (h : List.Forall₂ clsRowEquiv cls₁ cls₂) :
    buildTypeCategories cls₁ = buildTypeCategories cls₂ := by
  rw [buildTypeCategories, buildTypeCategories]
  suffices hgen : ∀ m : List (Str × Str),
      cls₁.foldlM tcStep m = cls₂.foldlM tcStep m from hgen []
  induction h with
  | nil => intro m; rfl
  | cons hrow hrest ih =>
    rename_i row₁ row₂ l₁ l₂
    intro m
    rw [List.foldlM_cons, List.foldlM_cons, tcStep_equiv m row₁ row₂ hrow]
    cases hs : tcStep m row₂ with
    | error e => simp only [except_error_bind]
    | ok m₁ =>
      simp only [except_ok_bind]
      exact ih m₁

/-! Claim theorems. -/

/-- C9: on empty observation rows and empty classification rows (so the types
set is empty and its only iteration order is the empty one) the pipeline
returns, without raising, empty date, type, per-category, total-assets,
total-debts and net-worth lists, an empty latest-snapshot mapping and an
empty classification map. -/
theorem c9_empty_input :
    process_sheet_data [] [] [] =
      .ok ⟨⟨[], [], [], [], [], []⟩, [], []⟩ := rfl

/-- C6: an observation row with fewer than 5 fields contributes nothing to
the output: the pipeline run with the short row inserted anywhere equals the
run without it (so the row adds no date, no type, no value, and raises
nothing), for every iteration order and classification input. -/
theorem c6_short_row_skipped (tOrd : List Str) (pre post cls : List (List Str))
    (row : List Str) (h : row.length < 5) :
    process_sheet_data tOrd (pre ++ row :: post) cls =
      process_sheet_data tOrd (pre ++ post) cls := by
  have hc : collect (pre ++ row :: post) = collect (pre ++ post) := by
    rw [collect, collect, List.foldlM_append, List.foldlM_append]
    congr 1
    funext st
    rw [List.foldlM_cons, collectStep_short st row h, except_ok_bind]
  rw [process_sheet_data, process_sheet_data, hc]

theorem c6_short_row_skipped_witness :
    ([ "31/12/2023".toList] : List Str).length < 5 ∧
    process_sheet_data [ "cash".toList]
        ([[ "01/01/2023".toList, "Cash".toList, "1000".toList, "GBP".toList, "1000".toList]]
          ++ [ "31/12/2023".toList] ::
            [[ "02/01/2023".toList, "Cash".toList, "1200".toList, "GBP".toList, "1200".toList]])
        [[ "Cash".toList, "Asset".toList]] =
      process_sheet_data [ "cash".toList]
        ([[ "01/01/2023".toList, "Cash".toList, "1000".toList, "GBP".toList, "1000".toList]]
          ++ [[ "02/01/2023".toList, "Cash".toList, "1200".toList, "GBP".toList, "1200".toList]])
        [[ "Cash".toList, "Asset".toList]] :=
  ⟨by decide,
   c6_short_row_skipped [ "cash".toList]
     [[ "01/01/2023".toList, "Cash".toList, "1000".toList, "GBP".toList, "1000".toList]]
     [[ "02/01/2023".toList, "Cash".toList, "1200".toList, "GBP".toList, "1200".toList]]
     [[ "Cash".toList, "Asset".toList]]
     [ "31/12/2023".toList] (by decide)⟩

theorem buildTC_short_err (rows : List (List Str)) :
    ∀ m, (∃ r ∈ rows, r.length < 2) → rows.foldlM tcStep m = .error "IndexError" := by
  induction rows with
  | nil => intro m h; simp at h
  | cons row rest ih =>
    intro m h
    rw [List.foldlM_cons]
    rcases row with _ | ⟨a, _ | ⟨b, rest₂⟩⟩
    · rw [show tcStep m [] = .error "IndexError" from rfl, except_error_bind]
    · rw [show tcStep m [a] = .error "IndexError" from rfl, except_error_bind]
    · rw [show tcStep m (a :: b :: rest₂) = .ok (ainsert (normalize_type a) b m) from rfl,
        except_ok_bind]
      refine ih _ ?_
      rcases h with ⟨r, hr, hlen⟩
      rcases List.mem_cons.mp hr with hr | hr
      · subst hr; rw [List.length_cons, List.length_cons] at hlen; omega
      · exact ⟨r, hr, hlen⟩

/-- C7: a classification row with fewer than 2 fields makes the dict
comprehension of app.py line 61 raise an IndexError which propagates out of
process_sheet_data, whatever the observation rows are — in contrast to the
silent skip applied to short observation rows. -/
theorem c7_short_classification_raises (tOrd : List Str) (obs cls : List (List Str))
    (h : ∃ r ∈ cls, r.length < 2) :
    buildTypeCategories cls = .error "IndexError" ∧
    process_sheet_data tOrd obs cls = .error "IndexError" := by
  have hb : buildTypeCategories cls = .error "IndexError" := by
    rw [buildTypeCategories]
    exact buildTC_short_err cls [] h
  refine ⟨hb, ?_⟩
  rw [process_sheet_data, hb, except_error_bind]

theorem c7_short_classification_raises_witness :
    (∃ r ∈ ([[ "Cash".toList]] : List (List Str)), r.length < 2) ∧
    buildTypeCategories [[ "Cash".toList]] = .error "IndexError" ∧
    process_sheet_data [ "cash".toList]
      [[ "01/01/2023".toList, "Cash".toList, "1000".toList, "GBP".toList, "1000".toList]]
      [[ "Cash".toList]] = .error "IndexError" :=
  ⟨⟨[ "Cash".toList], by decide, by decide⟩,
   c7_short_classification_raises [ "cash".toList]
     [[ "01/01/2023".toList, "Cash".toList, "1000".toList, "GBP".toList, "1000".toList]]
     [[ "Cash".toList]] ⟨[ "Cash".toList], by decide, by decide⟩⟩

/-- C4: raw category labels that differ only in letter case or in leading and
trailing whitespace are indistinguishable to the pipeline: they normalize to
the same key, and replacing labels by equivalent ones anywhere in the
observation rows (position 1) or classification rows (position 0) leaves the
whole output — series, classifications, totals, snapshot — unchanged. -/
theorem c4_normalization (a b : Str) (tOrd : List Str)
    (obs₁ obs₂ cls₁ cls₂ : List (List Str)) (hab : labelEquiv a b)
    (hobs : List.Forall₂ obsRowEquiv obs₁ obs₂)
    (hcls : List.Forall₂ clsRowEquiv cls₁ cls₂) :
    normalize_type a = normalize_type b ∧
    process_sheet_data tOrd obs₁ cls₁ = process_sheet_data tOrd obs₂ cls₂ := by
  refine ⟨normalize_labelEquiv a b hab, ?_⟩
  rw [process_sheet_data, process_sheet_data, collect_equiv _ _ hobs,
    buildTC_equiv _ _ hcls]

theorem c4_normalization_witness :
    labelEquiv "  Cash ".toList "CASH".toList ∧
    (normalize_type "  Cash ".toList = normalize_type "CASH".toList ∧
     process_sheet_data [ "cash".toList]
       [[ "01/01/2023".toList, "  Cash ".toList, "1000".toList, "GBP".toList, "1000".toList]]
       [[ "  Cash ".toList, "Asset".toList]] =
     process_sheet_data [ "cash".toList]
       [[ "01/01/2023".toList, "CASH".toList, "1000".toList, "GBP".toList, "1000".toList]]
       [[ "CASH".toList, "Asset".toList]]) := by
  have hab : labelEquiv "  Cash ".toList "CASH".toList :=
    ⟨"  ".toList, "Cash".toList, " ".toList, [], "CASH".toList, [],
     by decide, by decide, by decide, by decide, by decide, by decide,
     by decide, by decide, by decide⟩
  refine ⟨hab, c4_normalization _ _ _ _ _ _ _ hab ?_ ?_⟩
  · exact List.Forall₂.cons (Or.inr ⟨_, _, _, _, rfl, rfl, hab⟩) List.Forall₂.nil
  · exact List.Forall₂.cons (Or.inr ⟨_, _, _, rfl, rfl, hab⟩) List.Forall₂.nil

theorem getD_map_of_lt {α β : Type} (f : α → β) (l : List α) (i : Nat)
    (hi : i < l.length) (d : α) (e : β) : (l.map f).getD i e = f (l.getD i d) := by
  rw [List.getD_eq_getElem?_getD, List.getD_eq_getElem?_getD, List.getElem?_map,
    List.getElem?_eq_getElem hi]
  rfl

/-- C8: in every successful run (with an iteration order that enumerates the
collected types set), the reconstructed per-category series of every category
in the output type list, and the three totals series, all have exactly one
entry per distinct observed date. -/
theorem c8_alignment (tOrd : List Str) (obs cls : List (List Str)) (st : LoopState)
    (r : PResult) (hst : collect obs = .ok st) (hperm : tOrd.Perm st.types)
    (hr : process_sheet_data tOrd obs cls = .ok r) :
    (∀ t ∈ r.chart.types,
      ((alookup t r.chart.type_data).getD []).length = r.chart.dates.length) ∧
    r.chart.total_assets.length = r.chart.dates.length ∧
    r.chart.total_debts.length = r.chart.dates.length ∧
    r.chart.net_worth.length = r.chart.dates.length := by
  obtain ⟨tc, st₁, ld, hb, hc, hl, hre⟩ := process_ok_elim _ _ _ _ hr
  have hst₁ : st₁ = st := Except.ok.inj (hc.symm.trans hst)
  subst hst₁
  subst hre
  have hinv := collect_stinv _ _ hst
  have hnd : tOrd.Nodup := (hinv.2.1).perm hperm.symm
  dsimp only
  refine ⟨?_, ?_, ?_, ?_⟩
  · intro t hmem
    rw [chartLoop, chartFold_td st₁.store tc tOrd hnd]
    simp [alookup, hmem]
  · rw [chartLoop, chartFold_assets]
    simp
  · rw [chartLoop, chartFold_debts]
    simp
  · rw [chartLoop, chartFold_net]
    simp

/-- C2: at every date index the net-worth entry equals the total-assets entry
minus the total-debts entry exactly, where the total-assets entry is the sum
of the carried-forward values (with their original sign, no negation and no
absolute value) of the categories classified Asset and the total-debts entry
is the same sum over the categories classified Debt. -/
theorem c2_net_worth_identity (tOrd : List Str) (obs cls : List (List Str))
    (st : LoopState) (r : PResult) (hst : collect obs = .ok st)
    (hr : process_sheet_data tOrd obs cls = .ok r) (i : Nat)
    (hi : i < r.chart.dates.length) :
    r.chart.net_worth.getD i 0 =
      r.chart.total_assets.getD i 0 - r.chart.total_debts.getD i 0 ∧
    r.chart.total_assets.getD i 0 =
      assetSum st.store r.type_categories r.chart.types ((sortNat st.dates).getD i 0) ∧
    r.chart.total_debts.getD i 0 =
      debtSum st.store r.type_categories r.chart.types ((sortNat st.dates).getD i 0) := by
  obtain ⟨tc, st₁, ld, hb, hc, hl, hre⟩ := process_ok_elim _ _ _ _ hr
  have hst₁ : st₁ = st := Except.ok.inj (hc.symm.trans hst)
  subst hst₁
  subst hre
  dsimp only at hi ⊢
  have hi₂ : i < (sortNat st₁.dates).length := by
    rw [List.length_map] at hi
    exact hi
  rw [chartLoop, chartFold_assets, chartFold_debts, chartFold_net]
  simp only [List.nil_append]
  rw [getD_map_of_lt _ _ i hi₂ 0, getD_map_of_lt _ _ i hi₂ 0, getD_map_of_lt _ _ i hi₂ 0]
  exact ⟨rfl, rfl, rfl⟩

/-- C1: in every successful run, for every collected category and every index
into the ascending date list, the reconstructed series entry for that
category equals the recorded value at the greatest recorded date of that
category that is at or before the queried date, and equals 0 when the
category has no recorded date at or before it. -/
theorem c1_locf_reconstruction (tOrd : List Str) (obs cls : List (List Str))
    (st : LoopState) (r : PResult) (hst : collect obs = .ok st)
    (hperm : tOrd.Perm st.types) (hr : process_sheet_data tOrd obs cls = .ok r)
    (t : Str) (hmem : t ∈ st.types) (i : Nat) (hi : i < r.chart.dates.length) :
    ((∃ d ∈ storeKeys st.store t, d ≤ (sortNat st.dates).getD i 0) →
      ∃ d₀ v, d₀ ∈ storeKeys st.store t ∧ d₀ ≤ (sortNat st.dates).getD i 0 ∧
        (∀ d ∈ storeKeys st.store t, d ≤ (sortNat st.dates).getD i 0 → d ≤ d₀) ∧
        alookup d₀ ((alookup t st.store).getD []) = some v ∧
        ((alookup t r.chart.type_data).getD []).getD i 0 = v) ∧
    ((∀ d ∈ storeKeys st.store t, ¬ d ≤ (sortNat st.dates).getD i 0) →
      ((alookup t r.chart.type_data).getD []).getD i 0 = 0) := by
  obtain ⟨tc, st₁, ld, hb, hc, hl, hre⟩ := process_ok_elim _ _ _ _ hr
  have hst₁ : st₁ = st := Except.ok.inj (hc.symm.trans hst)
  subst hst₁
  subst hre
  have hinv := collect_stinv _ _ hst
  have hnd : tOrd.Nodup := (hinv.2.1).perm hperm.symm
  have hmem₂ : t ∈ tOrd := (hperm.mem_iff).mpr hmem
  dsimp only at hi ⊢
  have hi₂ : i < (sortNat st₁.dates).length := by
    rw [List.length_map] at hi
    exact hi
  have hseries :
      (alookup t ((chartLoop st₁.store tc tOrd (sortNat st₁.dates)).type_data)).getD []
        = (sortNat st₁.dates).map (fun q => locfValue st₁.store t q) := by
    rw [chartLoop, chartFold_td st₁.store tc tOrd hnd]
    simp [alookup, hmem₂]
  rw [hseries, getD_map_of_lt _ _ i hi₂ 0]
  constructor
  · intro hex
    exact locf_greatest st₁.store t _ hex
  · intro hall
    exact locf_none st₁.store t _ hall

/-- C5: when at least one valid 5-field observation row carries a given
(normalized category, date) pair, the value retained for that pair is the one
of the row appearing latest in input order, and in every successful run that
value is the one the reconstruction emits at that date index. -/
theorem c5_last_write_wins (tOrd : List Str) (obs cls : List (List Str))
    (st : LoopState) (r : PResult) (t : Str) (d : Nat) (v : ℚ)
    (hst : collect obs = .ok st) (hperm : tOrd.Perm st.types)
    (hr : process_sheet_data tOrd obs cls = .ok r)
    (hlw : specLastWrite obs t d = some v) :
    alookup d ((alookup t st.store).getD []) = some v ∧ t ∈ st.types ∧
    (∀ i, i < r.chart.dates.length → (sortNat st.dates).getD i 0 = d →
      ((alookup t r.chart.type_data).getD []).getD i 0 = v) := by
  have hstored : alookup d ((alookup t st.store).getD []) = some v := by
    have hchar := collect_store_lookup obs ⟨[], [], []⟩ st hst t d
    rw [hlw] at hchar
    exact hchar
  have hmem : t ∈ st.types :=
    (collect_mem_of_lastWrite obs ⟨[], [], []⟩ st hst t d (by rw [hlw]; rfl)).1
  refine ⟨hstored, hmem, ?_⟩
  intro i hi hqd
  obtain ⟨tc, st₁, ld, hb, hc, hl, hre⟩ := process_ok_elim _ _ _ _ hr
  have hst₁ : st₁ = st := Except.ok.inj (hc.symm.trans hst)
  subst hst₁
  subst hre
  have hinv := collect_stinv _ _ hst
  have hnd : tOrd.Nodup := (hinv.2.1).perm hperm.symm
  have hmem₂ : t ∈ tOrd := (hperm.mem_iff).mpr hmem
  dsimp only at hi hqd ⊢
  have hi₂ : i < (sortNat st₁.dates).length := by
    rw [List.length_map] at hi
    exact hi
  have hseries :
      (alookup t ((chartLoop st₁.store tc tOrd (sortNat st₁.dates)).type_data)).getD []
        = (sortNat st₁.dates).map (fun q => locfValue st₁.store t q) := by
    rw [chartLoop, chartFold_td st₁.store tc tOrd hnd]
    simp [alookup, hmem₂]
  rw [hseries, getD_map_of_lt _ _ i hi₂ 0, hqd]
  exact locf_at_recorded st₁.store t d v hstored

/-- C10: in every successful run, every collected category has at least one
recorded date at or before the global latest date, so its latest-snapshot
entry is the recorded value at one of its own observation dates — the
zero-assigning fallback branch of the latest-values loop is never taken for a
collected category. -/
theorem c10_latest_snapshot_observed (tOrd : List Str) (obs cls : List (List Str))
    (st : LoopState) (r : PResult) (t : Str)
    (hst : collect obs = .ok st) (hperm : tOrd.Perm st.types)
    (hr : process_sheet_data tOrd obs cls = .ok r) (hmem : t ∈ st.types) :
    ∃ L, (sortNat st.dates).getLast? = some L ∧
      (storeKeys st.store t).filter (fun d => decide (d ≤ L)) ≠ [] ∧
      ∃ d v, d ∈ storeKeys st.store t ∧ d ≤ L ∧
        alookup d ((alookup t st.store).getD []) = some v ∧
        alookup t r.latest_data = some v := by
  obtain ⟨tc, st₁, ld, hb, hc, hl, hre⟩ := process_ok_elim _ _ _ _ hr
  have hst₁ : st₁ = st := Except.ok.inj (hc.symm.trans hst)
  subst hst₁
  subst hre
  have hinv := collect_stinv _ _ hst
  have hkeys : storeKeys st₁.store t ≠ [] := hinv.2.2.2.2 t hmem
  obtain ⟨d₁, hd₁⟩ := List.exists_mem_of_ne_nil _ hkeys
  have hd₁dates : d₁ ∈ st₁.dates := hinv.2.2.2.1 t d₁ hd₁
  have hd₁sorted : d₁ ∈ sortNat st₁.dates := ((sortNat_perm _).mem_iff).mpr hd₁dates
  have hsne : sortNat st₁.dates ≠ [] := List.ne_nil_of_mem hd₁sorted
  have hL : (sortNat st₁.dates).getLast? = some ((sortNat st₁.dates).getLast hsne) :=
    List.getLast?_eq_getLast _ hsne
  set L := (sortNat st₁.dates).getLast hsne with hLdef
  have hd₁L : d₁ ≤ L := sorted_le_getLast _ (sortNat_sorted _) d₁ hd₁sorted hsne
  have hfil : d₁ ∈ (storeKeys st₁.store t).filter (fun d => decide (d ≤ L)) := by
    rw [List.mem_filter]
    exact ⟨hd₁, by simpa using hd₁L⟩
  obtain ⟨d₀, v, hk₀, hle₀, hgr₀, hv₀, hlocf₀⟩ :=
    locf_greatest st₁.store t L ⟨d₁, hd₁, hd₁L⟩
  rw [hL] at hl
  have hmem₂ : t ∈ tOrd := (hperm.mem_iff).mpr hmem
  have hld := buildLatest_some_lookup st₁.store L tOrd ld hl t
  rw [if_pos hmem₂, hlocf₀] at hld
  exact ⟨L, hL, List.ne_nil_of_mem hfil, d₀, v, hk₀, hle₀, hv₀, hld⟩

theorem assetSum_perm (store : List (Str × List (Nat × ℚ))) (cats : List (Str × Str))
    (q : Nat) (ts₁ ts₂ : List Str) (hp : ts₁.Perm ts₂) :
    assetSum store cats ts₁ q = assetSum store cats ts₂ q :=
  List.Perm.sum_eq ((hp.filter _).map _)

theorem debtSum_perm (store : List (Str × List (Nat × ℚ))) (cats : List (Str × Str))
    (q : Nat) (ts₁ ts₂ : List Str) (hp : ts₁.Perm ts₂) :
    debtSum store cats ts₁ q = debtSum store cats ts₂ q :=
  List.Perm.sum_eq ((hp.filter _).map _)

/-- C3 amended: two runs on identical inputs whose set-iteration orders are
both enumerations of the collected types set agree on the date list, the
totals and net-worth series, the per-category series and the latest snapshot
viewed as mappings, and the classification map; the types lists agree only up
to permutation — the interpreter-chosen set order is the one part of the
output that can differ between runs. -/
theorem c3_amended_order_insensitive (tOrd₁ tOrd₂ : List Str)
    (obs cls : List (List Str)) (st : LoopState) (r₁ r₂ : PResult)
    (hst : collect obs = .ok st)
    (hp₁ : tOrd₁.Perm st.types) (hp₂ : tOrd₂.Perm st.types)
    (h₁ : process_sheet_data tOrd₁ obs cls = .ok r₁)
    (h₂ : process_sheet_data tOrd₂ obs cls = .ok r₂) :
    r₁.chart.dates = r₂.chart.dates ∧
    r₁.chart.types.Perm r₂.chart.types ∧
    r₁.chart.total_assets = r₂.chart.total_assets ∧
    r₁.chart.total_debts = r₂.chart.total_debts ∧
    r₁.chart.net_worth = r₂.chart.net_worth ∧
    (∀ t, (alookup t r₁.chart.type_data).getD [] =
      (alookup t r₂.chart.type_data).getD []) ∧
    (∀ t, alookup t r₁.latest_data = alookup t r₂.latest_data) ∧
    r₁.type_categories = r₂.type_categories := by
  obtain ⟨tcA, stA, ldA, hbA, hcA, hlA, hreA⟩ := process_ok_elim _ _ _ _ h₁
  obtain ⟨tcB, stB, ldB, hbB, hcB, hlB, hreB⟩ := process_ok_elim _ _ _ _ h₂
  have hstA : stA = st := Except.ok.inj (hcA.symm.trans hst)
  have hstB : stB = st := Except.ok.inj (hcB.symm.trans hst)
  have htc : tcB = tcA := Except.ok.inj (hbB.symm.trans hbA)
  rw [hstA] at hlA hreA
  rw [hstB, htc] at hreB
  rw [hstB] at hlB
  subst hreA
  subst hreB
  have hinv := collect_stinv _ _ hst
  have hndA : tOrd₁.Nodup := (hinv.2.1).perm hp₁.symm
  have hndB : tOrd₂.Nodup := (hinv.2.1).perm hp₂.symm
  have hpp : tOrd₁.Perm tOrd₂ := hp₁.trans hp₂.symm
  dsimp only
  refine ⟨rfl, hpp, ?_, ?_, ?_, ?_, ?_, rfl⟩
  · rw [chartLoop, chartLoop, chartFold_assets, chartFold_assets]
    simp only [List.nil_append]
    exact List.map_congr_left (fun q _ => assetSum_perm _ _ q _ _ hpp)
  · rw [chartLoop, chartLoop, chartFold_debts, chartFold_debts]
    simp only [List.nil_append]
    exact List.map_congr_left (fun q _ => debtSum_perm _ _ q _ _ hpp)
  · rw [chartLoop, chartLoop, chartFold_net, chartFold_net]
    simp only [List.nil_append]
    refine List.map_congr_left (fun q _ => ?_)
    rw [assetSum_perm _ _ q _ _ hpp, debtSum_perm _ _ q _ _ hpp]
  · intro t
    rw [chartLoop, chartLoop, chartFold_td _ _ _ hndA, chartFold_td _ _ _ hndB]
    by_cases hm : t ∈ tOrd₁
    · rw [if_pos hm, if_pos (hpp.mem_iff.mp hm)]
    · rw [if_neg hm, if_neg (fun hh => hm (hpp.mem_iff.mpr hh))]
  · intro t
    by_cases hne : sortNat st.dates = []
    · have hdnil : st.dates = [] := by
        have hper := sortNat_perm st.dates
        rw [hne] at hper
        exact (List.Perm.nil_eq hper).symm
      have htnil : st.types = [] := by
        cases hty : st.types with
        | nil => rfl
        | cons t₀ r₀ =>
          have hk : storeKeys st.store t₀ ≠ [] :=
            hinv.2.2.2.2 t₀ (by rw [hty]; exact List.mem_cons_self t₀ r₀)
          obtain ⟨d₁, hd₁⟩ := List.exists_mem_of_ne_nil _ hk
          have : d₁ ∈ st.dates := hinv.2.2.2.1 t₀ d₁ hd₁
          rw [hdnil] at this
          simp at this
      have hoA : tOrd₁ = [] := by
        rw [htnil] at hp₁
        exact List.Perm.eq_nil hp₁
      have hoB : tOrd₂ = [] := by
        rw [htnil] at hp₂
        exact List.Perm.eq_nil hp₂
      rw [hoA] at hlA
      rw [hoB] at hlB
      have hldA : ldA = [] := Except.ok.inj hlA.symm
      have hldB : ldB = [] := Except.ok.inj hlB.symm
      rw [hldA, hldB]
    · have hL : (sortNat st.dates).getLast? =
          some ((sortNat st.dates).getLast hne) :=
        List.getLast?_eq_getLast _ hne
      rw [hL] at hlA hlB
      rw [buildLatest_some_lookup _ _ _ _ hlA t, buildLatest_some_lookup _ _ _ _ hlB t]
      by_cases hm : t ∈ tOrd₁
      · rw [if_pos hm, if_pos (hpp.mem_iff.mp hm)]
      · rw [if_neg hm, if_neg (fun hh => hm (hpp.mem_iff.mpr hh))]

/-! Concrete fixture used by the witnesses. -/

def obsFix : List (List Str) :=
  [[ "01/01/2023".toList, "Cash".toList, "100".toList, "GBP".toList, "100".toList],
   [ "01/01/2023".toList, "Cash".toList, "200".toList, "GBP".toList, "200".toList],
   [ "02/01/2023".toList, "Stocks".toList, "2000".toList, "GBP".toList, "2000".toList]]

def clsFix : List (List Str) :=
  [[ "Cash".toList, "Asset".toList], [ "Stocks".toList, "Debt".toList]]

def ordA : List Str := [ "cash".toList, "stocks".toList]

def ordB : List Str := [ "stocks".toList, "cash".toList]

/-- Loop state of a successful collection, for stating concrete instances. -/
def collectRes (obs : List (List Str)) : LoopState :=
  match collect obs with
  | .ok st => st
  | .error _ => ⟨[], [], []⟩

/-- Result of a successful run, for stating concrete instances. -/
def processRes (tOrd : List Str) (obs cls : List (List Str)) : PResult :=
  match process_sheet_data tOrd obs cls with
  | .ok r => r
  | .error _ => ⟨⟨[], [], [], [], [], []⟩, [], []⟩

deriving instance DecidableEq for Except

theorem c3_counterexample :
    collect obsFix = .ok (collectRes obsFix) ∧
    ordA.Perm (collectRes obsFix).types ∧ ordB.Perm (collectRes obsFix).types ∧
    process_sheet_data ordA obsFix clsFix = .ok (processRes ordA obsFix clsFix) ∧
    process_sheet_data ordB obsFix clsFix = .ok (processRes ordB obsFix clsFix) ∧
    (processRes ordA obsFix clsFix).chart.types ≠
      (processRes ordB obsFix clsFix).chart.types := by
  refine ⟨rfl, by decide, by decide, rfl, rfl, by decide⟩

theorem c8_alignment_witness :
    collect obsFix = .ok (collectRes obsFix) ∧
    ordA.Perm (collectRes obsFix).types ∧
    process_sheet_data ordA obsFix clsFix = .ok (processRes ordA obsFix clsFix) ∧
    ((∀ t ∈ (processRes ordA obsFix clsFix).chart.types,
        ((alookup t (processRes ordA obsFix clsFix).chart.type_data).getD []).length =
          (processRes ordA obsFix clsFix).chart.dates.length) ∧
      (processRes ordA obsFix clsFix).chart.total_assets.length =
        (processRes ordA obsFix clsFix).chart.dates.length ∧
      (processRes ordA obsFix clsFix).chart.total_debts.length =
        (processRes ordA obsFix clsFix).chart.dates.length ∧
      (processRes ordA obsFix clsFix).chart.net_worth.length =
        (processRes ordA obsFix clsFix).chart.dates.length) :=
  ⟨rfl, by decide, rfl,
   c8_alignment ordA obsFix clsFix (collectRes obsFix) (processRes ordA obsFix clsFix)
     rfl (by decide) rfl⟩

theorem c2_net_worth_identity_witness :
    collect obsFix = .ok (collectRes obsFix) ∧
    process_sheet_data ordA obsFix clsFix = .ok (processRes ordA obsFix clsFix) ∧
    0 < (processRes ordA obsFix clsFix).chart.dates.length ∧
    ((processRes ordA obsFix clsFix).chart.net_worth.getD 0 0 =
        (processRes ordA obsFix clsFix).chart.total_assets.getD 0 0 -
          (processRes ordA obsFix clsFix).chart.total_debts.getD 0 0 ∧
     (processRes ordA obsFix clsFix).chart.total_assets.getD 0 0 =
        assetSum (collectRes obsFix).store (processRes ordA obsFix clsFix).type_categories
          (processRes ordA obsFix clsFix).chart.types
          ((sortNat (collectRes obsFix).dates).getD 0 0) ∧
     (processRes ordA obsFix clsFix).chart.total_debts.getD 0 0 =
        debtSum (collectRes obsFix).store (processRes ordA obsFix clsFix).type_categories
          (processRes ordA obsFix clsFix).chart.types
          ((sortNat (collectRes obsFix).dates).getD 0 0)) :=
  ⟨rfl, rfl, by decide,
   c2_net_worth_identity ordA obsFix clsFix (collectRes obsFix)
     (processRes ordA obsFix clsFix) rfl rfl 0 (by decide)⟩

theorem c1_locf_reconstruction_witness :
    collect obsFix = .ok (collectRes obsFix) ∧
    ordA.Perm (collectRes obsFix).types ∧
    process_sheet_data ordA obsFix clsFix = .ok (processRes ordA obsFix clsFix) ∧
    "cash".toList ∈ (collectRes obsFix).types ∧
    0 < (processRes ordA obsFix clsFix).chart.dates.length ∧
    (((∃ d ∈ storeKeys (collectRes obsFix).store ( "cash".toList),
        d ≤ (sortNat (collectRes obsFix).dates).getD 0 0) →
      ∃ d₀ v, d₀ ∈ storeKeys (collectRes obsFix).store ( "cash".toList) ∧
        d₀ ≤ (sortNat (collectRes obsFix).dates).getD 0 0 ∧
        (∀ d ∈ storeKeys (collectRes obsFix).store ( "cash".toList),
          d ≤ (sortNat (collectRes obsFix).dates).getD 0 0 → d ≤ d₀) ∧
        alookup d₀ ((alookup ( "cash".toList) (collectRes obsFix).store).getD []) = some v ∧
        ((alookup ( "cash".toList)
          (processRes ordA obsFix clsFix).chart.type_data).getD []).getD 0 0 = v) ∧
     ((∀ d ∈ storeKeys (collectRes obsFix).store ( "cash".toList),
        ¬ d ≤ (sortNat (collectRes obsFix).dates).getD 0 0) →
      ((alookup ( "cash".toList)
        (processRes ordA obsFix clsFix).chart.type_data).getD []).getD 0 0 = 0)) :=
  ⟨rfl, by decide, rfl, by decide, by decide,
   c1_locf_reconstruction ordA obsFix clsFix (collectRes obsFix)
     (processRes ordA obsFix clsFix) rfl (by decide) rfl ( "cash".toList) (by decide)
     0 (by decide)⟩

theorem c5_last_write_wins_witness :
    collect obsFix = .ok (collectRes obsFix) ∧
    ordA.Perm (collectRes obsFix).types ∧
    process_sheet_data ordA obsFix clsFix = .ok (processRes ordA obsFix clsFix) ∧
    specLastWrite obsFix ( "cash".toList) 20230101 = some 200 ∧
    (alookup 20230101 ((alookup ( "cash".toList) (collectRes obsFix).store).getD []) =
        some 200 ∧
     "cash".toList ∈ (collectRes obsFix).types ∧
     (∀ i, i < (processRes ordA obsFix clsFix).chart.dates.length →
        (sortNat (collectRes obsFix).dates).getD i 0 = 20230101 →
        ((alookup ( "cash".toList)
          (processRes ordA obsFix clsFix).chart.type_data).getD []).getD i 0 = 200)) :=
  ⟨rfl, by decide, rfl, by decide,
   c5_last_write_wins ordA obsFix clsFix (collectRes obsFix) (processRes ordA obsFix clsFix)
     ( "cash".toList) 20230101 200 rfl (by decide) rfl (by decide)⟩

theorem c10_latest_snapshot_observed_witness :
    collect obsFix = .ok (collectRes obsFix) ∧
    ordA.Perm (collectRes obsFix).types ∧
    process_sheet_data ordA obsFix clsFix = .ok (processRes ordA obsFix clsFix) ∧
    "cash".toList ∈ (collectRes obsFix).types ∧
    (∃ L, (sortNat (collectRes obsFix).dates).getLast? = some L ∧
      (storeKeys (collectRes obsFix).store ( "cash".toList)).filter
        (fun d => decide (d ≤ L)) ≠ [] ∧
      ∃ d v, d ∈ storeKeys (collectRes obsFix).store ( "cash".toList) ∧ d ≤ L ∧
        alookup d ((alookup ( "cash".toList) (collectRes obsFix).store).getD []) = some v ∧
        alookup ( "cash".toList) (processRes ordA obsFix clsFix).latest_data = some v) :=
  ⟨rfl, by decide, rfl, by decide,
   c10_latest_snapshot_observed ordA obsFix clsFix (collectRes obsFix)
     (processRes ordA obsFix clsFix) ( "cash".toList) rfl (by decide) rfl (by decide)⟩

theorem c3_amended_order_insensitive_witness :
    collect obsFix = .ok (collectRes obsFix) ∧
    ordA.Perm (collectRes obsFix).types ∧
    ordB.Perm (collectRes obsFix).types ∧
    process_sheet_data ordA obsFix clsFix = .ok (processRes ordA obsFix clsFix) ∧
    process_sheet_data ordB obsFix clsFix = .ok (processRes ordB obsFix clsFix) ∧
    ((processRes ordA obsFix clsFix).chart.dates =
        (processRes ordB obsFix clsFix).chart.dates ∧
     (processRes ordA obsFix clsFix).chart.types.Perm
        (processRes ordB obsFix clsFix).chart.types ∧
     (processRes ordA obsFix clsFix).chart.total_assets =
        (processRes ordB obsFix clsFix).chart.total_assets ∧
     (processRes ordA obsFix clsFix).chart.total_debts =
        (processRes ordB obsFix clsFix).chart.total_debts ∧
     (processRes ordA obsFix clsFix).chart.net_worth =
        (processRes ordB obsFix clsFix).chart.net_worth ∧
     (∀ t, (alookup t (processRes ordA obsFix clsFix).chart.type_data).getD [] =
        (alookup t (processRes ordB obsFix clsFix).chart.type_data).getD []) ∧
     (∀ t, alookup t (processRes ordA obsFix clsFix).latest_data =
        alookup t (processRes ordB obsFix clsFix).latest_data) ∧
     (processRes ordA obsFix clsFix).type_categories =
        (processRes ordB obsFix clsFix).type_categories) :=
  ⟨rfl, by decide, by decide, rfl, rfl,
   c3_amended_order_insensitive ordA ordB obsFix clsFix (collectRes obsFix)
     (processRes ordA obsFix clsFix) (processRes ordB obsFix clsFix)
     rfl (by decide) (by decide) rfl rfl⟩
